import Mathlib

/-
  Verification of the go-elasticsearch-testfixtures library.

  The Go source is shallowly embedded: filesystem state (directory listings,
  file contents) and the Elasticsearch gateway (per-call outcomes) are passed
  explicitly as values; each Go function becomes a Lean function over them.
-/

set_option maxHeartbeats 1000000

namespace TestFixtures

/-- Structured YAML/JSON-like values, the model of Go's `interface{}` as
produced by `yaml.Unmarshal` (strings, integers, booleans, null, sequences,
and string-keyed mappings; a Go map is modelled as an association list with
unique keys). -/
inductive YamlValue : Type where
  | vstr (s : String)
  | vint (n : Int)
  | vbool (b : Bool)
  | vnull : YamlValue
  | vseq (items : List YamlValue)
  | vmap (fields : List (String × YamlValue))

mutual

/-- Model of Go's `fmt.Sprintf("%v", x)` generic formatting used in
`parseYAMLDocuments` to coerce the `_id` value to a string: strings print
verbatim, integers in decimal, booleans as true/false, nil as `<nil>`,
slices space-separated in brackets, maps as `map[k:v ...]` (the model prints
map fields in the association list's order). -/
def govFormat : YamlValue → String
  | .vstr s => s
  | .vint n => toString n
  | .vbool b => if b then "true" else "false"
  | .vnull => "<nil>"
  | .vseq items => "[" ++ govFormatSeq items ++ "]"
  | .vmap fields => "map[" ++ govFormatMap fields ++ "]"

/-- Space-separated rendering of a sequence, for `govFormat`. -/
def govFormatSeq : List YamlValue → String
  | [] => ""
  | [v] => govFormat v
  | v :: rest => govFormat v ++ " " ++ govFormatSeq rest

/-- Space-separated `key:value` rendering of a mapping, for `govFormat`. -/
def govFormatMap : List (String × YamlValue) → String
  | [] => ""
  | [(k, v)] => k ++ ":" ++ govFormat v
  | (k, v) :: rest => k ++ ":" ++ govFormat v ++ " " ++ govFormatMap rest

end

/-- Go (fixture.go): `type document struct { ID string; Body map[string]interface{} }`.
The body map is modelled as an association list with unique keys. -/
structure document where
  ID : String
  Body : List (String × YamlValue)

/-- Model of Go's `%q` verb for plain names: wrap in double quotes. -/
def quote (s : String) : String := "\"" ++ s ++ "\""

/-- Go (part_000, loop body of `parseYAMLDocuments`): build one `document`
from a parsed record object. If the object has an `_id` key, its value is
string-coerced with `fmt.Sprintf("%v", ...)` into `ID` and the key is deleted
from the body (Go's `delete(doc.Body, "_id")`, modelled by filtering the
association list); otherwise `ID` stays empty and the body is the object. -/
def mkDocument (raw : List (String × YamlValue)) : document :=
  match raw.lookup ("_id") with
  | some v => ⟨govFormat v, raw.filter (fun p => p.1 != "_id")⟩
  | none => ⟨"", raw⟩

/-- Outcome of Go's `yaml.Unmarshal(data, &rawDocs)` with
`rawDocs : []map[string]interface{}` on one record-source file: `objects`
when the file content is a top-level sequence of mapping objects, `malformed`
(with the yaml library's message) otherwise. The yaml library itself is an
external collaborator; only its outcome is modelled. -/
inductive YamlParse : Type where
  | malformed (msg : String)
  | objects (objs : List (List (String × YamlValue)))

/-- Go (part_000): `parseYAMLDocuments` over the unmarshal outcome of the
file's content: a malformed file yields the wrapped error
`unmarshaling YAML: ...`; otherwise each record object becomes a `document`
in order. (The `os.ReadFile` step is modelled as already performed: the
file's content is the `YamlParse` value.) -/
def parseYAMLDocuments : YamlParse → Except String (List document)
  | .malformed msg => Except.error ("unmarshaling YAML: " ++ msg)
  | .objects objs => Except.ok (objs.map mkDocument)

/-- C6: for every parsed record object, a present `_id` key makes the
record's id the string coercion of its value and the body the object with
the `_id` key removed (so the body never contains `_id`, and every other
field is kept); an absent `_id` key leaves the id empty and the body the
full unchanged object. -/
theorem record_id_extraction (raw : List (String × YamlValue)) :
    (∀ v, raw.lookup ("_id") = some v →
      mkDocument raw = ⟨govFormat v, raw.filter (fun p => p.1 != "_id")⟩ ∧
      (∀ p ∈ (mkDocument raw).Body, p.1 ≠ "_id") ∧
      (∀ p ∈ raw, p.1 ≠ "_id" → p ∈ (mkDocument raw).Body)) ∧
    (raw.lookup ("_id") = none → mkDocument raw = ⟨"", raw⟩) := by
  constructor
  · intro v hv
    refine ⟨by simp [mkDocument, hv], ?_, ?_⟩
    · intro p hp
      simp only [mkDocument, hv] at hp
      have := List.of_mem_filter hp
      simpa using this
    · intro p hp hne
      simp only [mkDocument, hv]
      exact List.mem_filter.mpr ⟨hp, by simpa using hne⟩
  · intro hv
    simp [mkDocument, hv]

/-- Witness for C6 at a concrete record: `_id: 7` (an integer) is coerced to
the string `7` and stripped from the body. -/
theorem record_id_extraction_witness :
    mkDocument [("_id", YamlValue.vint 7), ("name", YamlValue.vstr ("Alice"))] =
      ⟨"7", [("name", YamlValue.vstr ("Alice"))]⟩ := by
  have h :=
    (record_id_extraction [("_id", YamlValue.vint 7), ("name", YamlValue.vstr ("Alice"))]).1
      (YamlValue.vint 7) (by rfl)
  simpa [govFormat] using h.1

/-- Outcome the bulk engine reports for one submitted item, as seen by the
`OnFailure` callback in `bulkInsertDocuments` (index.go): `ok` when the item
succeeded (the callback is not invoked), `failErr` when the callback is
invoked with a non-nil transport error, `failRes` when it is invoked with a
response item carrying a status, error type and reason. -/
inductive ItemOutcome : Type where
  | ok : ItemOutcome
  | failErr (msg : String)
  | failRes (status : Nat) (etype : String) (reason : String)

/-- Model of the esutil.BulkIndexer run (external collaborator): the per-item
outcomes, in submission order (one per document), and the engine's
`Stats().NumFailed` counter. Creating the indexer, marshaling bodies,
`Add` and `Close` are assumed to succeed; their failure modes belong to the
external library, not to the batching logic under verification. -/
structure BulkEngine where
  outcomes : List ItemOutcome
  numFailed : Nat

/-- One `esutil.BulkIndexerItem` as built by `bulkInsertDocuments`: its
`Action` string, its `DocumentID` (modelled as `none` when the Go field is
left at its zero value, letting the store assign an id), and its marshaled
body. -/
structure BulkItem where
  action : String
  docID : Option String
  itemBody : List (String × YamlValue)

/-- Go (index.go, loop body of `bulkInsertDocuments`): every item gets
`Action: "index"`, and `DocumentID` is set only when `doc.ID != ""`. -/
def mkBulkItem (d : document) : BulkItem :=
  ⟨"index", if d.ID = "" then none else some d.ID, d.Body⟩

/-- Message the `OnFailure` callback appends to `bulkErrors` for one failed
item (`none` for a successful item, for which the callback never runs):
the transport error's text, or `[status] type: reason` for a response-level
failure. -/
def fmtOutcome : ItemOutcome → Option String
  | .ok => none
  | .failErr msg => some msg
  | .failRes status etype reason =>
      some ("[" ++ toString status ++ "] " ++ etype ++ ": " ++ reason)

/-- Go (index.go): `bulkInsertDocuments`. Returns the items submitted to the
bulk indexer together with the function's result (`none` = nil error).
Empty input returns immediately with no submission. Otherwise all documents
are submitted as one batch; after `Close`, the collected `bulkErrors` are
checked first (joined with `; `), then the engine's `NumFailed` counter. -/
def bulkInsertDocuments (indexName : String) (docs : List document)
    (eng : BulkEngine) : List BulkItem × Option String :=
  match docs with
  | [] => ([], none)
  | _ :: _ =>
    (docs.map mkBulkItem,
      match eng.outcomes.filterMap fmtOutcome with
      | m :: ms =>
        some ("bulk insert errors for " ++ quote indexName ++ ": " ++
          String.intercalate ("; ") (m :: ms))
      | [] =>
        if 0 < eng.numFailed then
          some ("bulk insert for " ++ quote indexName ++ ": " ++
            toString eng.numFailed ++ " documents failed")
        else none)

/-- C2: Populate is a no-op on an empty record list; otherwise it submits
every record in a single batch, and after the batch completes it fails iff
some record failed (an item-level failure was signalled or the engine's
failure count is nonzero); when item-level failures were collected, the
returned error aggregates every collected failure message. -/
theorem bulk_populate_failure_aggregation (indexName : String)
    (docs : List document) (eng : BulkEngine)
    (hlen : eng.outcomes.length = docs.length) :
    (docs = [] → bulkInsertDocuments indexName docs eng = ([], none)) ∧
    (docs ≠ [] →
      (bulkInsertDocuments indexName docs eng).1 = docs.map mkBulkItem ∧
      ((bulkInsertDocuments indexName docs eng).2 = none ↔
        (∀ o ∈ eng.outcomes, fmtOutcome o = none) ∧ eng.numFailed = 0) ∧
      (∀ msgs, msgs = eng.outcomes.filterMap fmtOutcome → msgs ≠ [] →
        (bulkInsertDocuments indexName docs eng).2 =
          some ("bulk insert errors for " ++ quote indexName ++ ": " ++
            String.intercalate ("; ") msgs))) := by
  constructor
  · rintro rfl
    rfl
  · intro h
    obtain ⟨d, ds, rfl⟩ := List.exists_cons_of_ne_nil h
    have hu : (bulkInsertDocuments indexName (d :: ds) eng).2 =
        (match eng.outcomes.filterMap fmtOutcome with
         | m :: ms =>
           some ("bulk insert errors for " ++ quote indexName ++ ": " ++
             String.intercalate ("; ") (m :: ms))
         | [] =>
           if 0 < eng.numFailed then
             some ("bulk insert for " ++ quote indexName ++ ": " ++
               toString eng.numFailed ++ " documents failed")
           else none) := rfl
    refine ⟨rfl, ?_, ?_⟩
    · rw [hu]
      cases hfm : eng.outcomes.filterMap fmtOutcome with
      | cons m ms =>
        constructor
        · intro hx
          exact absurd hx (by simp)
        · rintro ⟨hall, -⟩
          exfalso
          have hm : m ∈ eng.outcomes.filterMap fmtOutcome := by
            rw [hfm]
            exact List.mem_cons_self m ms
          rcases List.mem_filterMap.mp hm with ⟨o, ho, hfo⟩
          rw [hall o ho] at hfo
          cases hfo
      | nil =>
        by_cases hnf : 0 < eng.numFailed
        · rw [if_pos hnf]
          constructor
          · intro hx
            exact absurd hx (by simp)
          · rintro ⟨-, h0⟩
            omega
        · rw [if_neg hnf]
          constructor
          · intro _
            exact ⟨List.filterMap_eq_nil_iff.mp hfm, by omega⟩
          · intro _
            rfl
    · intro msgs hmsgs hne2
      have hfne : eng.outcomes.filterMap fmtOutcome ≠ [] := hmsgs ▸ hne2
      obtain ⟨m, ms, hfm⟩ := List.exists_cons_of_ne_nil hfne
      rw [hu, hfm, hmsgs, hfm]

/-- Witness for C2: one document, one item-level response failure and
failure count one: the phase fails and the error carries the collected
per-record message. -/
theorem bulk_populate_failure_aggregation_witness :
    (bulkInsertDocuments ("users") [⟨"1", []⟩]
      ⟨[ItemOutcome.failRes 400 ("mapper_parsing_exception") ("bad field")], 1⟩).2 =
      some ("bulk insert errors for \"users\": [400] mapper_parsing_exception: bad field") := by
  have h :=
    (bulk_populate_failure_aggregation ("users") [⟨"1", []⟩]
      ⟨[ItemOutcome.failRes 400 ("mapper_parsing_exception") ("bad field")], 1⟩
      (by rfl)).2 (by simp)
  have h3 := h.2.2 [("[400] mapper_parsing_exception: bad field")] (by rfl) (by simp)
  simpa using h3

/-- C3: in the batch built by the Populate phase, every item's write action
is the upsert-by-create bulk action `index`, and an explicit document id is
attached to an item iff the corresponding record's id is a non-empty string
(and then it equals that id). -/
theorem bulk_items_action_and_id (indexName : String) (docs : List document)
    (eng : BulkEngine) (hne : docs ≠ []) :
    (bulkInsertDocuments indexName docs eng).1.length = docs.length ∧
    ∀ i (hi : i < docs.length)
      (hi2 : i < (bulkInsertDocuments indexName docs eng).1.length),
      ((bulkInsertDocuments indexName docs eng).1.get ⟨i, hi2⟩).action = "index" ∧
      (((bulkInsertDocuments indexName docs eng).1.get ⟨i, hi2⟩).docID =
        if (docs.get ⟨i, hi⟩).ID = "" then none else some (docs.get ⟨i, hi⟩).ID) ∧
      (((bulkInsertDocuments indexName docs eng).1.get ⟨i, hi2⟩).docID ≠ none ↔
        (docs.get ⟨i, hi⟩).ID ≠ "") := by
  obtain ⟨d, ds, rfl⟩ := List.exists_cons_of_ne_nil hne
  refine ⟨by simp [bulkInsertDocuments], ?_⟩
  intro i hi hi2
  have hg : (bulkInsertDocuments indexName (d :: ds) eng).1.get ⟨i, hi2⟩ =
      mkBulkItem ((d :: ds).get ⟨i, hi⟩) := by
    have h1 : (bulkInsertDocuments indexName (d :: ds) eng).1.get ⟨i, hi2⟩ =
        ((d :: ds).map mkBulkItem).get ⟨i, by simpa using hi⟩ := rfl
    rw [h1]
    simp only [List.get_eq_getElem]
    exact List.getElem_map mkBulkItem
  rw [hg]
  refine ⟨rfl, rfl, ?_⟩
  simp only [mkBulkItem]
  split <;> simp_all

/-- Witness for C3: a two-document batch, one with id `p3`, one with empty
id: the first item carries the explicit id, the second none; both use the
`index` action. -/
theorem bulk_items_action_and_id_witness :
    ((bulkInsertDocuments ("products") [⟨"p3", []⟩, ⟨"", []⟩] ⟨[], 0⟩).1.map
        BulkItem.action = [("index"), ("index")]) ∧
    ((bulkInsertDocuments ("products") [⟨"p3", []⟩, ⟨"", []⟩] ⟨[], 0⟩).1.map
        BulkItem.docID = [some ("p3"), none]) := by
  have h := bulk_items_action_and_id ("products") [⟨"p3", []⟩, ⟨"", []⟩] ⟨[], 0⟩ (by simp)
  have h0 := h.2 0 (by simp) (by rw [h.1]; simp)
  have h1 := h.2 1 (by simp) (by rw [h.1]; simp)
  constructor <;> simp [bulkInsertDocuments, mkBulkItem]

/-- Reserved schema file name (part_000): `_mapping.json`. -/
def mappingFile : String := "_mapping.json"

/-- Reserved settings file name (part_000): `_settings.json`. -/
def settingsFile : String := "_settings.json"

/-- Go (index.go): `buildCreateIndexBody`. Both inputs nil yields a nil body
(no request body at all); otherwise a JSON object (modelled as an
association list, in Go's marshal key order) holding `mappings` and/or
`settings`, exactly the present ones. -/
def buildCreateIndexBody (mapping settings : Option String) :
    Option (List (String × String)) :=
  match mapping, settings with
  | none, none => none
  | _, _ =>
    some ((match mapping with
            | some m => [(("mappings"), m)]
            | none => []) ++
          (match settings with
            | some s => [(("settings"), s)]
            | none => []))

/-- Creation request issued by `createIndex` (index.go): the index name and
the optional body (`none` models issuing the request with no `WithBody`
option at all). -/
structure CreateRequest where
  reqName : String
  reqBody : Option (List (String × String))

/-- Go (index.go): `createIndex` builds the body with
`buildCreateIndexBody` and attaches it to the request only when non-nil. -/
def createIndex (name : String) (mapping settings : Option String) : CreateRequest :=
  ⟨name, buildCreateIndexBody mapping settings⟩

/-- C5: with both schema and settings absent the creation request carries no
body at all; with at least one present the body is exactly the object with
the present ones under the fixed keys `mappings` and `settings`, and
nothing else. -/
theorem create_index_body_exact (name : String) :
    (createIndex name none none).reqBody = none ∧
    (∀ m, (createIndex name (some m) none).reqBody = some [(("mappings"), m)]) ∧
    (∀ s, (createIndex name none (some s)).reqBody = some [(("settings"), s)]) ∧
    (∀ m s, (createIndex name (some m) (some s)).reqBody =
      some [(("mappings"), m), (("settings"), s)]) :=
  ⟨rfl, fun _ => rfl, fun _ => rfl, fun _ _ => rfl⟩

/-- Lexicographic comparison of character lists, code point by code point:
the order in which Go's `os.ReadDir` returns directory entries (sorted by
filename; UTF-8 byte order coincides with code-point order). -/
def charListLe : List Char → List Char → Bool
  | [], _ => true
  | _ :: _, [] => false
  | a :: as, b :: bs =>
    if a < b then true
    else if b < a then false
    else charListLe as bs

/-- Executable lexicographic comparison of strings. -/
def strLe (a b : String) : Bool := charListLe a.toList b.toList

/-- The executable comparison agrees with the lexicographic order on
character lists. -/
theorem charListLe_iff : ∀ as bs : List Char,
    charListLe as bs = true ↔ ¬ List.Lex (fun x y : Char => x < y) bs as
  | [], bs => by
    constructor
    · intro _ h
      cases h
    · intro _
      rfl
  | a :: as, [] => by
    constructor
    · intro h
      cases h
    · intro h
      exact absurd List.Lex.nil h
  | a :: as, b :: bs => by
    by_cases hab : a < b
    · rw [charListLe, if_pos hab]
      constructor
      · intro _ h
        cases h with
        | cons h' => exact absurd hab (lt_irrefl _)
        | rel h' => exact absurd h' (lt_asymm hab)
      · intro _
        rfl
    · by_cases hba : b < a
      · rw [charListLe, if_neg hab, if_pos hba]
        constructor
        · intro h
          cases h
        · intro h
          exact absurd (List.Lex.rel hba) h
      · have hone : a = b := le_antisymm (le_of_not_lt hba) (le_of_not_lt hab)
        subst hone
        rw [charListLe, if_neg hab, if_neg hba, charListLe_iff as bs]
        constructor
        · intro h hl
          cases hl with
          | cons h' => exact h h'
          | rel h' => exact absurd h' hab
        · intro h hl
          exact h (List.Lex.cons hl)

/-- The executable comparison agrees with the standard lexicographic string
order. -/
theorem strLe_iff (a b : String) : strLe a b = true ↔ a ≤ b := by
  rw [strLe, charListLe_iff, String.le_iff_toList_le, ← not_lt]
  exact Iff.rfl

/-- Model of the sorting performed by Go's `os.ReadDir`, which returns a
directory's entries sorted by filename: sort a listing by an entry-name
key. -/
def sortByName {α : Type} (key : α → String) (l : List α) : List α :=
  @List.insertionSort α (fun x y => strLe (key x) (key y) = true)
    (fun x y => Bool.decEq (strLe (key x) (key y)) true) l

/-- Sorting a listing yields a permutation of it. -/
theorem sortByName_perm {α : Type} (key : α → String) (l : List α) :
    List.Perm (sortByName key l) l :=
  List.perm_insertionSort _ l

/-- Sorting a listing yields a list whose names are pairwise in
lexicographic order. -/
theorem sortByName_sorted {α : Type} (key : α → String) (l : List α) :
    (sortByName key l).Pairwise (fun x y => strLe (key x) (key y) = true) := by
  haveI : IsTotal α (fun x y => strLe (key x) (key y) = true) := ⟨by
    intro x y
    rcases le_total (key x) (key y) with h | h
    · exact Or.inl ((strLe_iff _ _).mpr h)
    · exact Or.inr ((strLe_iff _ _).mpr h)⟩
  haveI : IsTrans α (fun x y => strLe (key x) (key y) = true) := ⟨by
    intro x y z hxy hyz
    exact (strLe_iff _ _).mpr (le_trans ((strLe_iff _ _).mp hxy) ((strLe_iff _ _).mp hyz))⟩
  exact List.sorted_insertionSort _ l

/-- Two name-sorted listings that are permutations of each other and have
pairwise-distinct names (as filesystem listings do) are equal. -/
theorem sorted_key_eq {α : Type} (key : α → String) (l₁ l₂ : List α)
    (hp : List.Perm l₁ l₂)
    (hs₁ : l₁.Pairwise (fun x y => strLe (key x) (key y) = true))
    (hs₂ : l₂.Pairwise (fun x y => strLe (key x) (key y) = true))
    (hnd : (l₁.map key).Nodup) : l₁ = l₂ := by
  haveI : IsAntisymm α (fun x y => key x < key y) := ⟨by
    intro x y h₁ h₂
    exact absurd h₂ (lt_asymm h₁)⟩
  apply List.eq_of_perm_of_sorted (r := fun x y => key x < key y) hp
  · have hne : l₁.Pairwise (fun x y => key x ≠ key y) := by
      rw [List.Nodup, List.pairwise_map] at hnd
      exact hnd
    exact (hs₁.and hne).imp (fun h => lt_of_le_of_ne ((strLe_iff _ _).mp h.1) h.2)
  · have hnd₂ : (l₂.map key).Nodup := ((hp.map key).nodup_iff).mp hnd
    have hne : l₂.Pairwise (fun x y => key x ≠ key y) := by
      rw [List.Nodup, List.pairwise_map] at hnd₂
      exact hnd₂
    exact (hs₂.and hne).imp (fun h => lt_of_le_of_ne ((strLe_iff _ _).mp h.1) h.2)

/-- Sorting two listings of the same entries (permutations with distinct
names) gives the same sorted listing. -/
theorem sortByName_perm_eq {α : Type} (key : α → String) (l₁ l₂ : List α)
    (hp : List.Perm l₁ l₂) (hnd : (l₁.map key).Nodup) :
    sortByName key l₁ = sortByName key l₂ := by
  exact sorted_key_eq key _ _
    (((sortByName_perm key l₁).trans hp).trans (sortByName_perm key l₂).symm)
    (sortByName_sorted key l₁) (sortByName_sorted key l₂)
    ((((sortByName_perm key l₁).map key).nodup_iff).mpr hnd)

/-- One entry of a collection directory's listing, as `os.ReadDir` reports
it: its base name, whether it is a subdirectory, and (for a record-source
file) the unmarshal outcome of its content. -/
structure FileEntry where
  name : String
  isDir : Bool
  yaml : YamlParse

/-- Model of Go's `strings.HasSuffix` (executable on character lists). -/
def strEndsWith (s t : String) : Bool := List.isSuffixOf t.toList s.toList

/-- Model of Go's `strings.HasPrefix` (executable on character lists). -/
def strStartsWith (s t : String) : Bool := List.isPrefixOf t.toList s.toList

/-- Go (part_000, loop of `parseDocumentFiles`): an entry is a record source
iff it is not a directory, its name ends in `.yml` or `.yaml`, and its name
does not start with `_`. -/
def isDocFile (e : FileEntry) : Bool :=
  !e.isDir && (strEndsWith e.name (".yml") || strEndsWith e.name (".yaml")) &&
    !strStartsWith e.name ("_")

/-- Collection-directory listing in the order `os.ReadDir` yields it
(sorted by filename). -/
def sortFileEntries (es : List FileEntry) : List FileEntry :=
  sortByName FileEntry.name es

/-- Go (part_000, loop of `parseDocumentFiles`): walk the listing in order,
skip non-record-source entries, parse each record source, abort on the
first failure (wrapping it with the file's name), and concatenate the
parsed documents. -/
def parseDocsLoop : List FileEntry → Except String (List document)
  | [] => Except.ok []
  | e :: rest =>
    if isDocFile e then
      match parseYAMLDocuments e.yaml with
      | Except.error err =>
          Except.error ("parsing document file " ++ quote e.name ++ ": " ++ err)
      | Except.ok fileDocs =>
        match parseDocsLoop rest with
        | Except.error err => Except.error err
        | Except.ok docs => Except.ok (fileDocs ++ docs)
    else parseDocsLoop rest

/-- Go (part_000): `parseDocumentFiles` over a directory's entries:
`os.ReadDir` yields them sorted by filename, then the loop above runs. -/
def parseDocumentFiles (es : List FileEntry) : Except String (List document) :=
  parseDocsLoop (sortFileEntries es)

/-- Documents contributed by one well-formed record-source file, in the
order its records appear. -/
def docsOfEntry (e : FileEntry) : List document :=
  match e.yaml with
  | .objects objs => objs.map mkDocument
  | .malformed _ => []

/-- C8: exactly the non-directory entries named `*.yml`/`*.yaml` and not
starting with `_` are record sources, and the directory's record sequence
is the concatenation of those files' records in discovery (sorted listing)
order, preserving each file's internal record order. -/
theorem record_sources_and_order (es : List FileEntry)
    (h : ∀ e ∈ es, isDocFile e = true → ∃ objs, e.yaml = YamlParse.objects objs) :
    parseDocumentFiles es =
      Except.ok (((sortFileEntries es).filter isDocFile).flatMap docsOfEntry) := by
  unfold parseDocumentFiles
  have h2 : ∀ e ∈ sortFileEntries es, isDocFile e = true →
      ∃ objs, e.yaml = YamlParse.objects objs := by
    intro e he
    exact h e ((sortByName_perm FileEntry.name es).mem_iff.mp he)
  generalize sortFileEntries es = l at h2 ⊢
  induction l with
  | nil => rfl
  | cons e rest ih =>
    by_cases hd : isDocFile e = true
    · obtain ⟨objs, hobj⟩ := h2 e (List.mem_cons_self e rest) hd
      rw [parseDocsLoop, if_pos hd, hobj]
      rw [ih (fun x hx hdx => h2 x (List.mem_cons_of_mem e hx) hdx)]
      simp [List.filter_cons, hd, docsOfEntry, hobj, parseYAMLDocuments]
    · rw [parseDocsLoop, if_neg hd]
      rw [ih (fun x hx hdx => h2 x (List.mem_cons_of_mem e hx) hdx)]
      simp [List.filter_cons, hd]

/-- Witness for C8: a listing holding a subdirectory, a `_mapping.json`, a
`_seed.yml` (reserved prefix), a `notes.txt` and two record sources given
out of order: only the two record sources contribute, in sorted file-name
order, each file's records in order. -/
theorem record_sources_and_order_witness :
    parseDocumentFiles
      [⟨"002_books.yml", false, YamlParse.objects [[(("title"), YamlValue.vstr ("Go Programming"))]]⟩,
       ⟨"sub", true, YamlParse.malformed ("unread")⟩,
       ⟨"_mapping.json", false, YamlParse.malformed ("unread")⟩,
       ⟨"_seed.yml", false, YamlParse.malformed ("unread")⟩,
       ⟨"notes.txt", false, YamlParse.malformed ("unread")⟩,
       ⟨"001_electronics.yml", false,
          YamlParse.objects [[(("sku"), YamlValue.vint 1)], [(("sku"), YamlValue.vint 2)]]⟩] =
      Except.ok [⟨"", [(("sku"), YamlValue.vint 1)]⟩, ⟨"", [(("sku"), YamlValue.vint 2)]⟩,
        ⟨"", [(("title"), YamlValue.vstr ("Go Programming"))]⟩] := by
  have h := record_sources_and_order
    [⟨"002_books.yml", false, YamlParse.objects [[(("title"), YamlValue.vstr ("Go Programming"))]]⟩,
     ⟨"sub", true, YamlParse.malformed ("unread")⟩,
     ⟨"_mapping.json", false, YamlParse.malformed ("unread")⟩,
     ⟨"_seed.yml", false, YamlParse.malformed ("unread")⟩,
     ⟨"notes.txt", false, YamlParse.malformed ("unread")⟩,
     ⟨"001_electronics.yml", false,
        YamlParse.objects [[(("sku"), YamlValue.vint 1)], [(("sku"), YamlValue.vint 2)]]⟩]
    (by
      intro e he hd
      fin_cases he <;> first
        | exact ⟨_, rfl⟩
        | exact absurd hd (by decide))
  rw [h]
  rfl

/-- C9: a record-source file whose content is not a top-level sequence of
mapping objects fails the parse with an error naming the file, and that
failure aborts the whole directory's parse: no partial document list is
returned. -/
theorem malformed_record_source_aborts (es pre : List FileEntry)
    (bad : FileEntry) (post : List FileEntry) (m : String)
    (hsplit : sortFileEntries es = pre ++ bad :: post)
    (hpre : ∀ e ∈ pre, isDocFile e = true → ∃ objs, e.yaml = YamlParse.objects objs)
    (hbad : isDocFile bad = true) (hm : bad.yaml = YamlParse.malformed m) :
    parseYAMLDocuments bad.yaml = Except.error ("unmarshaling YAML: " ++ m) ∧
    parseDocumentFiles es =
      Except.error ("parsing document file " ++ quote bad.name ++ ": " ++
        ("unmarshaling YAML: " ++ m)) := by
  refine ⟨by rw [hm]; rfl, ?_⟩
  unfold parseDocumentFiles
  rw [hsplit]
  clear hsplit
  induction pre with
  | nil =>
    rw [List.nil_append, parseDocsLoop, if_pos hbad, hm]
    rfl
  | cons e rest ih =>
    rw [List.cons_append, parseDocsLoop]
    by_cases hd : isDocFile e = true
    · obtain ⟨objs, hobj⟩ := hpre e (List.mem_cons_self e rest) hd
      rw [if_pos hd, hobj]
      rw [ih (fun x hx hdx => hpre x (List.mem_cons_of_mem e hx) hdx)]
      rfl
    · rw [if_neg hd]
      exact ih (fun x hx hdx => hpre x (List.mem_cons_of_mem e hx) hdx)

/-- Witness for C9: a directory with one good record source and one
malformed one: the whole parse fails with the malformed file's name in the
message. -/
theorem malformed_record_source_aborts_witness :
    parseDocumentFiles
      [⟨"b_bad.yml", false, YamlParse.malformed ("cannot unmarshal scalar")⟩,
       ⟨"a_good.yml", false, YamlParse.objects [[(("k"), YamlValue.vint 1)]]⟩] =
      Except.error
        ("parsing document file \"b_bad.yml\": unmarshaling YAML: cannot unmarshal scalar") := by
  have h := malformed_record_source_aborts
    [⟨"b_bad.yml", false, YamlParse.malformed ("cannot unmarshal scalar")⟩,
     ⟨"a_good.yml", false, YamlParse.objects [[(("k"), YamlValue.vint 1)]]⟩]
    [⟨"a_good.yml", false, YamlParse.objects [[(("k"), YamlValue.vint 1)]]⟩]
    ⟨"b_bad.yml", false, YamlParse.malformed ("cannot unmarshal scalar")⟩
    [] ("cannot unmarshal scalar") (by rfl)
    (by
      intro e he hd
      fin_cases he
      exact ⟨_, rfl⟩)
    (by rfl) (by rfl)
  rw [h.2]
  rfl

/-- State of a reserved JSON file (`_mapping.json` / `_settings.json`) on
disk: absent, present but syntactically invalid JSON, or present and
valid with the given raw content. -/
inductive JsonFileState : Type where
  | absent : JsonFileState
  | invalid : JsonFileState
  | valid (content : String)

/-- Error from `readJSONFile` (part_000): the `os.ReadFile` not-exist error,
or the invalid-JSON error (whose message names the offending path). -/
inductive ReadError : Type where
  | notExist : ReadError
  | invalidJSON (msg : String)

/-- Go (part_000): `readJSONFile` reads a JSON file: a missing file
surfaces the not-exist error, invalid JSON fails with
`invalid JSON in "path"`, valid JSON returns the raw content. -/
def readJSONFile (path : String) : JsonFileState → Except ReadError String
  | .absent => Except.error ReadError.notExist
  | .invalid => Except.error (ReadError.invalidJSON ("invalid JSON in " ++ quote path))
  | .valid c => Except.ok c

/-- Caller-side handling in `parseIndexDir` (part_000): a not-exist error is
not an error (the field stays absent, Go's `os.IsNotExist` check); an
invalid-JSON error propagates; valid content is kept. -/
def resolveJSON (path : String) (st : JsonFileState) : Except String (Option String) :=
  match readJSONFile path st with
  | Except.error ReadError.notExist => Except.ok none
  | Except.error (ReadError.invalidJSON m) => Except.error m
  | Except.ok c => Except.ok (some c)

/-- On-disk state of one collection (index) directory: the two reserved
JSON files and the rest of the directory listing. -/
structure IndexDirState where
  mappingFile : JsonFileState
  settingsFile : JsonFileState
  entries : List FileEntry

/-- Go (fixture.go): `indexFixture` — the parsed model of one collection:
its name (the directory's base name), optional mapping, optional settings,
and its ordered documents. -/
structure indexFixture where
  name : String
  mapping : Option String
  settings : Option String
  documents : List document

/-- Go (part_000): `parseIndexDir` — read `_mapping.json` and
`_settings.json` (absence is not an error, malformation is, wrapped with
the reserved file name), then parse the record-source files. -/
def parseIndexDir (dirPath : String) (name : String) (d : IndexDirState) :
    Except String indexFixture :=
  match resolveJSON (dirPath ++ "/" ++ mappingFile) d.mappingFile with
  | Except.error m => Except.error ("reading " ++ mappingFile ++ ": " ++ m)
  | Except.ok mp =>
    match resolveJSON (dirPath ++ "/" ++ settingsFile) d.settingsFile with
    | Except.error m => Except.error ("reading " ++ settingsFile ++ ": " ++ m)
    | Except.ok st =>
      match parseDocumentFiles d.entries with
      | Except.error e => Except.error e
      | Except.ok docs => Except.ok ⟨name, mp, st, docs⟩

/-- One entry of the fixtures root directory: a plain file, or a candidate
collection directory with its on-disk state. -/
inductive RootEntry : Type where
  | file (name : String)
  | dir (name : String) (state : IndexDirState)

/-- Base name of a root entry. -/
def RootEntry.name : RootEntry → String
  | .file n => n
  | .dir n _ => n

/-- Whether a root entry is a directory (Go's `entry.IsDir()`). -/
def RootEntry.isDir : RootEntry → Bool
  | .file _ => false
  | .dir _ _ => true

/-- Root listing in the order `os.ReadDir` yields it (sorted by name). -/
def sortRootEntries (es : List RootEntry) : List RootEntry :=
  sortByName RootEntry.name es

/-- Go (part_000, loop of `parseFixtures`): walk the root listing in order,
skip non-directories, parse each directory (wrapping a failure with
`parsing index "name"`), fail fast, and collect the fixtures. -/
def parseFixturesLoop (root : String) : List RootEntry → Except String (List indexFixture)
  | [] => Except.ok []
  | RootEntry.file _ :: rest => parseFixturesLoop root rest
  | RootEntry.dir n st :: rest =>
    match parseIndexDir (root ++ "/" ++ n) n st with
    | Except.error e => Except.error ("parsing index " ++ quote n ++ ": " ++ e)
    | Except.ok f =>
      match parseFixturesLoop root rest with
      | Except.error e => Except.error e
      | Except.ok fs => Except.ok (f :: fs)

/-- Go (part_000): `parseFixtures` — list the root (sorted, as `os.ReadDir`
does), parse every subdirectory, and fail with the empty-fixture-set error
when no subdirectory was found. -/
def parseFixtures (root : String) (entries : List RootEntry) :
    Except String (List indexFixture) :=
  match parseFixturesLoop root (sortRootEntries entries) with
  | Except.error e => Except.error e
  | Except.ok [] => Except.error ("no index directories found in " ++ quote root)
  | Except.ok fs => Except.ok fs

/-- A successful `parseIndexDir` names the fixture after the directory. -/
theorem parseIndexDir_name (p n : String) (st : IndexDirState) (f : indexFixture)
    (h : parseIndexDir p n st = Except.ok f) : f.name = n := by
  unfold parseIndexDir at h
  split at h
  · cases h
  · split at h
    · cases h
    · split at h
      · cases h
      · cases h
        rfl

/-- The loop of `parseFixtures` yields one fixture per directory entry,
named after it, in listing order, when every directory parses. -/
theorem parseFixturesLoop_ok (root : String) :
    ∀ es : List RootEntry,
      (∀ n st, RootEntry.dir n st ∈ es →
        ∃ f, parseIndexDir (root ++ "/" ++ n) n st = Except.ok f) →
      ∃ fs, parseFixturesLoop root es = Except.ok fs ∧
        fs.map indexFixture.name = (es.filter RootEntry.isDir).map RootEntry.name := by
  intro es
  induction es with
  | nil =>
    intro _
    exact ⟨[], rfl, rfl⟩
  | cons e rest ih =>
    intro hok
    obtain ⟨fs, hloop, hnames⟩ := ih (fun n st hm => hok n st (List.mem_cons_of_mem e hm))
    cases e with
    | file n =>
      refine ⟨fs, ?_, ?_⟩
      · rw [parseFixturesLoop, hloop]
      · rw [hnames]
        rfl
    | dir n st =>
      obtain ⟨f, hf⟩ := hok n st (List.mem_cons_self _ _)
      refine ⟨f :: fs, ?_, ?_⟩
      · rw [parseFixturesLoop, hf, hloop]
      · have hn : f.name = n := parseIndexDir_name _ _ _ _ hf
        simp [List.filter_cons, RootEntry.isDir, hnames, hn, RootEntry.name]

/-- C7: parsing a root with N subdirectories (each well-formed) yields
exactly N collection fixtures named after the subdirectories, ignoring
non-directory root entries; a root with zero subdirectories fails with the
empty-fixture-set error instead of yielding an empty set. -/
theorem fixture_set_per_directory (root : String) (entries : List RootEntry)
    (hok : ∀ n st, RootEntry.dir n st ∈ entries →
      ∃ f, parseIndexDir (root ++ "/" ++ n) n st = Except.ok f) :
    (entries.filter RootEntry.isDir ≠ [] →
      ∃ fs, parseFixtures root entries = Except.ok fs ∧
        fs.map indexFixture.name =
          ((sortRootEntries entries).filter RootEntry.isDir).map RootEntry.name ∧
        fs.length = (entries.filter RootEntry.isDir).length) ∧
    (entries.filter RootEntry.isDir = [] →
      parseFixtures root entries =
        Except.error ("no index directories found in " ++ quote root)) := by
  have hperm : List.Perm (sortRootEntries entries) entries :=
    sortByName_perm RootEntry.name entries
  have hfperm : List.Perm ((sortRootEntries entries).filter RootEntry.isDir)
      (entries.filter RootEntry.isDir) := hperm.filter RootEntry.isDir
  obtain ⟨fs, hloop, hnames⟩ := parseFixturesLoop_ok root (sortRootEntries entries)
    (fun n st hm => hok n st (hperm.mem_iff.mp hm))
  constructor
  · intro hne
    refine ⟨fs, ?_, hnames, ?_⟩
    · unfold parseFixtures
      rw [hloop]
      cases hfs : fs with
      | nil =>
        exfalso
        rw [hfs] at hnames
        have h0 : (sortRootEntries entries).filter RootEntry.isDir = [] :=
          List.map_eq_nil_iff.mp hnames.symm
        have h2 : List.Perm ([] : List RootEntry) (entries.filter RootEntry.isDir) := by
          rw [← h0]
          exact hfperm
        exact hne (List.Perm.eq_nil h2.symm)
      | cons f fs' => rfl
    · have h1 : fs.length = ((sortRootEntries entries).filter RootEntry.isDir).length := by
        have h2 := congrArg List.length hnames
        simpa using h2
      rw [h1]
      exact hfperm.length_eq
  · intro hempty
    have hsorted : (sortRootEntries entries).filter RootEntry.isDir = [] :=
      List.Perm.eq_nil (hempty ▸ hfperm)
    have hfs : fs = [] := by
      have := hnames
      rw [hsorted] at this
      exact List.map_eq_nil_iff.mp this
    unfold parseFixtures
    rw [hloop, hfs]

/-- Concrete on-disk state used by the C7 witness: a `users` directory with
a mapping file and one record source, a `products` directory with nothing,
and a stray root-level file. -/
def wRootEntries : List RootEntry :=
  [RootEntry.file ("README.md"),
   RootEntry.dir ("users")
     ⟨JsonFileState.valid ("users-mapping"), JsonFileState.absent,
      [⟨"users.yml", false, YamlParse.objects [[(("_id"), YamlValue.vstr ("1"))]]⟩]⟩,
   RootEntry.dir ("products") ⟨JsonFileState.absent, JsonFileState.absent, []⟩]

/-- Witness for C7: the concrete root above yields exactly two fixtures
named after its two subdirectories, the stray file ignored. -/
theorem fixture_set_per_directory_witness :
    ∃ fs, parseFixtures ("testdata/fixtures") wRootEntries = Except.ok fs ∧
      fs.map indexFixture.name = [("products"), ("users")] ∧ fs.length = 2 := by
  obtain ⟨fs, hok, hnames, hlen⟩ :=
    (fixture_set_per_directory ("testdata/fixtures") wRootEntries
      (by
        intro n st hm
        simp only [wRootEntries, List.mem_cons, List.not_mem_nil, or_false] at hm
        rcases hm with hm | hm | hm
        · cases hm
        · cases hm
          exact ⟨_, rfl⟩
        · cases hm
          exact ⟨_, rfl⟩)).1
      (by intro h; cases h)
  refine ⟨fs, hok, ?_, ?_⟩
  · rw [hnames]
    rfl
  · rw [hlen]
    rfl

/-- A successful run of the `parseFixtures` loop names its output after the
directory entries it walked, in order. -/
theorem parseFixturesLoop_names (root : String) :
    ∀ (es : List RootEntry) (fs : List indexFixture),
      parseFixturesLoop root es = Except.ok fs →
      fs.map indexFixture.name = (es.filter RootEntry.isDir).map RootEntry.name := by
  intro es
  induction es with
  | nil =>
    intro fs h
    cases h
    rfl
  | cons e rest ih =>
    intro fs h
    cases e with
    | file n =>
      rw [parseFixturesLoop] at h
      rw [ih fs h]
      rfl
    | dir n st =>
      cases hpi : parseIndexDir (root ++ "/" ++ n) n st with
      | error e' =>
        rw [parseFixturesLoop, hpi] at h
        cases h
      | ok f =>
        cases hloop : parseFixturesLoop root rest with
        | error e' =>
          rw [parseFixturesLoop, hpi, hloop] at h
          cases h
        | ok fs₀ =>
          rw [parseFixturesLoop, hpi, hloop] at h
          cases h
          have hn := parseIndexDir_name _ _ _ _ hpi
          have hrest := ih fs₀ hloop
          simp [List.filter_cons, RootEntry.isDir, RootEntry.name, hn, hrest]

/-- C10: parsing is deterministic and its ordering reproducible: two
listings of the same entries (in any order, names distinct as on a real
filesystem) parse identically, at the root and inside a collection
directory; a successfully parsed fixture set is in strictly increasing
lexicographic order of collection name; and a collection's record-source
files are processed in lexicographic name order. -/
theorem parse_is_deterministic_and_sorted :
    (∀ (root : String) (e₁ e₂ : List RootEntry), List.Perm e₁ e₂ →
      (e₁.map RootEntry.name).Nodup →
      parseFixtures root e₁ = parseFixtures root e₂) ∧
    (∀ f₁ f₂ : List FileEntry, List.Perm f₁ f₂ →
      (f₁.map FileEntry.name).Nodup →
      parseDocumentFiles f₁ = parseDocumentFiles f₂) ∧
    (∀ (root : String) (entries : List RootEntry) (fs : List indexFixture),
      (entries.map RootEntry.name).Nodup →
      parseFixtures root entries = Except.ok fs →
      (fs.map indexFixture.name).Pairwise (fun a b => a < b)) ∧
    (∀ es : List FileEntry,
      ((sortFileEntries es).map FileEntry.name).Pairwise (fun a b => a ≤ b)) := by
  refine ⟨?_, ?_, ?_, ?_⟩
  · intro root e₁ e₂ hp hnd
    have hs : sortRootEntries e₁ = sortRootEntries e₂ :=
      sortByName_perm_eq RootEntry.name e₁ e₂ hp hnd
    unfold parseFixtures
    rw [hs]
  · intro f₁ f₂ hp hnd
    have hs : sortFileEntries f₁ = sortFileEntries f₂ :=
      sortByName_perm_eq FileEntry.name f₁ f₂ hp hnd
    unfold parseDocumentFiles
    rw [hs]
  · intro root entries fs hnd hok
    unfold parseFixtures at hok
    cases hloop : parseFixturesLoop root (sortRootEntries entries) with
    | error e =>
      rw [hloop] at hok
      cases hok
    | ok fs₀ =>
      rw [hloop] at hok
      cases fs₀ with
      | nil => cases hok
      | cons f fs' =>
        cases hok
        rw [parseFixturesLoop_names root (sortRootEntries entries) (f :: fs') hloop]
        have hsorted := sortByName_sorted RootEntry.name entries
        have hsub : List.Sublist ((sortRootEntries entries).filter RootEntry.isDir)
            (sortRootEntries entries) := List.filter_sublist _
        have hps : ((sortRootEntries entries).filter RootEntry.isDir).Pairwise
            (fun x y => strLe x.name y.name = true) := hsorted.sublist hsub
        have hnd2 : ((sortRootEntries entries).map RootEntry.name).Nodup :=
          (((sortByName_perm RootEntry.name entries).map RootEntry.name).nodup_iff).mpr hnd
        have hndf : (((sortRootEntries entries).filter RootEntry.isDir).map
            RootEntry.name).Nodup := (hsub.map RootEntry.name).nodup hnd2
        rw [List.pairwise_map]
        have hne : ((sortRootEntries entries).filter RootEntry.isDir).Pairwise
            (fun x y => x.name ≠ y.name) := List.pairwise_map.mp hndf
        exact (hps.and hne).imp (fun h => lt_of_le_of_ne ((strLe_iff _ _).mp h.1) h.2)
  · intro es
    rw [List.pairwise_map]
    exact (sortByName_sorted FileEntry.name es).imp (fun h => (strLe_iff _ _).mp h)

/-- Witness for C10: a two-entry root given in two different orders parses
to the same result. -/
theorem parse_is_deterministic_and_sorted_witness :
    parseFixtures ("fixtures")
        [RootEntry.file ("b.txt"),
         RootEntry.dir ("a") ⟨JsonFileState.absent, JsonFileState.absent, []⟩] =
      parseFixtures ("fixtures")
        [RootEntry.dir ("a") ⟨JsonFileState.absent, JsonFileState.absent, []⟩,
         RootEntry.file ("b.txt")] :=
  (parse_is_deterministic_and_sorted).1 ("fixtures") _ _
    (List.Perm.swap _ _ _) (by decide)

/-- The four phases `Loader.Load` runs per collection (index.go/part:
`deleteIndex`, `createIndex`, `bulkInsertDocuments`, `refreshIndex`). -/
inductive Phase : Type where
  | delete : Phase
  | create : Phase
  | populate : Phase
  | activate : Phase
deriving DecidableEq

/-- The document-store gateway (external collaborator): for each collection
name and phase, the outcome of the corresponding helper call — `none` for a
nil error, `some msg` for the helper's error message (already carrying the
helper's own wrapping such as `deleting index "x": ...`). -/
structure Gateway where
  result : String → Phase → Option String

/-- Go (Loader.Load, one loop iteration): run delete, create, populate,
activate in this order for one fixture, stop at the first failing phase,
wrap its error with `testfixtures: `, and record which calls were issued. -/
def loadFixture (g : Gateway) (f : indexFixture) :
    List (String × Phase) × Option String :=
  match g.result f.name Phase.delete with
  | some e => ([(f.name, Phase.delete)], some ("testfixtures: " ++ e))
  | none =>
    match g.result f.name Phase.create with
    | some e => ([(f.name, Phase.delete), (f.name, Phase.create)],
        some ("testfixtures: " ++ e))
    | none =>
      match g.result f.name Phase.populate with
      | some e => ([(f.name, Phase.delete), (f.name, Phase.create),
          (f.name, Phase.populate)], some ("testfixtures: " ++ e))
      | none =>
        match g.result f.name Phase.activate with
        | some e => ([(f.name, Phase.delete), (f.name, Phase.create),
            (f.name, Phase.populate), (f.name, Phase.activate)],
            some ("testfixtures: " ++ e))
        | none => ([(f.name, Phase.delete), (f.name, Phase.create),
            (f.name, Phase.populate), (f.name, Phase.activate)], none)

/-- Go (part: `Loader.Load`): process the fixtures strictly in set order,
returning at the first failing phase; the first component is the sequence
of gateway calls issued. -/
def Load (g : Gateway) : List indexFixture → List (String × Phase) × Option String
  | [] => ([], none)
  | f :: rest =>
    match loadFixture g f with
    | (t, some e) => (t, some e)
    | (t, none) => ((t ++ (Load g rest).1), (Load g rest).2)

/-- The full sequence of gateway calls `Load` would issue if nothing failed:
for each fixture in set order, its four phases in order. -/
def plannedCalls (fs : List indexFixture) : List (String × Phase) :=
  fs.flatMap (fun f => [(f.name, Phase.delete), (f.name, Phase.create),
    (f.name, Phase.populate), (f.name, Phase.activate)])

/-- Reference sequential runner over a call list: issue calls in order and
stop at the first failure, wrapping its error with `testfixtures: `. -/
def runCalls (g : Gateway) : List (String × Phase) → List (String × Phase) × Option String
  | [] => ([], none)
  | c :: rest =>
    match g.result c.1 c.2 with
    | some e => ([c], some ("testfixtures: " ++ e))
    | none => ((c :: (runCalls g rest).1), (runCalls g rest).2)

/-- The planned calls of a fixture-set head: its four phases, then the
rest. -/
theorem plannedCalls_cons (f : indexFixture) (rest : List indexFixture) :
    plannedCalls (f :: rest) = (f.name, Phase.delete) :: (f.name, Phase.create) ::
      (f.name, Phase.populate) :: (f.name, Phase.activate) :: plannedCalls rest := by
  simp [plannedCalls]

/-- `Load` issues exactly the planned calls, sequentially with fail-fast. -/
theorem Load_eq_runCalls (g : Gateway) : ∀ fs, Load g fs = runCalls g (plannedCalls fs) := by
  intro fs
  induction fs with
  | nil => rfl
  | cons f rest ih =>
    rw [plannedCalls_cons]
    cases h1 : g.result f.name Phase.delete with
    | some e => simp [Load, loadFixture, runCalls, h1]
    | none =>
      cases h2 : g.result f.name Phase.create with
      | some e => simp [Load, loadFixture, runCalls, h1, h2]
      | none =>
        cases h3 : g.result f.name Phase.populate with
        | some e => simp [Load, loadFixture, runCalls, h1, h2, h3]
        | none =>
          cases h4 : g.result f.name Phase.activate with
          | some e => simp [Load, loadFixture, runCalls, h1, h2, h3, h4]
          | none => simp [Load, loadFixture, runCalls, h1, h2, h3, h4, ih]

/-- A run in which every call succeeds issues all calls and returns nil. -/
theorem runCalls_all_ok (g : Gateway) : ∀ cs,
    (∀ c ∈ cs, g.result c.1 c.2 = none) → runCalls g cs = (cs, none) := by
  intro cs
  induction cs with
  | nil =>
    intro _
    rfl
  | cons c rest ih =>
    intro h
    have hc := h c (List.mem_cons_self _ _)
    simp [runCalls, hc, ih (fun x hx => h x (List.mem_cons_of_mem _ hx))]

/-- A run stops exactly at the first failing call. -/
theorem runCalls_first_fail (g : Gateway) : ∀ (pre : List (String × Phase)) c post m,
    (∀ x ∈ pre, g.result x.1 x.2 = none) → g.result c.1 c.2 = some m →
    runCalls g (pre ++ c :: post) = (pre ++ [c], some ("testfixtures: " ++ m)) := by
  intro pre
  induction pre with
  | nil =>
    intro c post m _ hc
    simp [runCalls, hc]
  | cons x rest ih =>
    intro c post m hpre hc
    have hx := hpre x (List.mem_cons_self _ _)
    simp [runCalls, hx, ih c post m (fun y hy => hpre y (List.mem_cons_of_mem _ hy)) hc]

/-- C1: `Load` runs the four phases delete, create, populate, activate per
collection, collections strictly in set order; when nothing fails it issues
exactly the planned call sequence and succeeds, and at the first failing
phase it returns that phase's error (wrapped) having issued no further
gateway call for that collection or any remaining one. -/
theorem load_phase_order_and_failfast (g : Gateway) (fs : List indexFixture) :
    ((∀ c ∈ plannedCalls fs, g.result c.1 c.2 = none) →
      Load g fs = (plannedCalls fs, none)) ∧
    (∀ (pre : List (String × Phase)) c post m, plannedCalls fs = pre ++ c :: post →
      (∀ x ∈ pre, g.result x.1 x.2 = none) → g.result c.1 c.2 = some m →
      Load g fs = (pre ++ [c], some ("testfixtures: " ++ m))) := by
  constructor
  · intro h
    rw [Load_eq_runCalls]
    exact runCalls_all_ok g _ h
  · intro pre c post m hsplit hpre hc
    rw [Load_eq_runCalls, hsplit]
    exact runCalls_first_fail g pre c post m hpre hc

/-- Gateway used by the C1 witness: the create phase of `users` fails,
everything else succeeds. -/
def wGateLoad : Gateway :=
  ⟨fun n p => if n = ("users") ∧ p = Phase.create then some ("boom") else none⟩

/-- Witness for C1: with two fixtures and a failing `users` create phase,
`Load` issues exactly the `users` delete and create calls, then stops with
the wrapped error; `products` is never touched. -/
theorem load_phase_order_and_failfast_witness :
    Load wGateLoad [⟨"users", none, none, []⟩, ⟨"products", none, none, []⟩] =
      ([(("users"), Phase.delete), (("users"), Phase.create)],
        some ("testfixtures: boom")) := by
  have h := (load_phase_order_and_failfast wGateLoad
      [⟨"users", none, none, []⟩, ⟨"products", none, none, []⟩]).2
      [(("users"), Phase.delete)] (("users"), Phase.create)
      [(("users"), Phase.populate), (("users"), Phase.activate),
       (("products"), Phase.delete), (("products"), Phase.create),
       (("products"), Phase.populate), (("products"), Phase.activate)]
      ("boom") (by rfl) (by decide) (by decide)
  simpa using h

/-- Go (part: loop of `Loader.Clean`): delete every fixture's index in set
order, never stopping; collect the names attempted and the errors
encountered. -/
def cleanLoop (g : Gateway) : List indexFixture → List String × List String
  | [] => ([], [])
  | f :: rest =>
    match g.result f.name Phase.delete with
    | some e => ((f.name :: (cleanLoop g rest).1), (e :: (cleanLoop g rest).2))
    | none => ((f.name :: (cleanLoop g rest).1), (cleanLoop g rest).2)

/-- Go (part: `Loader.Clean`): after attempting every deletion, return nil
when no error was collected, otherwise one composite error joining every
collected cause (Go's `errors.Join` renders messages newline-separated)
wrapped with `testfixtures: cleaning up: `. -/
def Clean (g : Gateway) (fs : List indexFixture) : List String × Option String :=
  match cleanLoop g fs with
  | (t, []) => (t, none)
  | (t, e :: es) =>
      (t, some ("testfixtures: cleaning up: " ++ String.intercalate ("\n") (e :: es)))

/-- The clean loop attempts every fixture and collects exactly the failing
outcomes, in order. -/
theorem cleanLoop_eq (g : Gateway) : ∀ fs, cleanLoop g fs =
    (fs.map indexFixture.name, fs.filterMap (fun f => g.result f.name Phase.delete)) := by
  intro fs
  induction fs with
  | nil => rfl
  | cons f rest ih =>
    cases h : g.result f.name Phase.delete with
    | some e => simp [cleanLoop, h, ih]
    | none => simp [cleanLoop, h, ih]

/-- C4: `Clean` requests deletion of every collection in set order, never
stops at a failure, succeeds iff zero deletions failed, and otherwise
returns one composite error aggregating every failure encountered. -/
theorem clean_attempts_all_and_aggregates (g : Gateway) (fs : List indexFixture) :
    (Clean g fs).1 = fs.map indexFixture.name ∧
    ((Clean g fs).2 = none ↔ ∀ f ∈ fs, g.result f.name Phase.delete = none) ∧
    (∀ errs, errs = fs.filterMap (fun f => g.result f.name Phase.delete) → errs ≠ [] →
      (Clean g fs).2 =
        some ("testfixtures: cleaning up: " ++ String.intercalate ("\n") errs)) := by
  cases hfm : fs.filterMap (fun f => g.result f.name Phase.delete) with
  | nil =>
    have hc : Clean g fs = (fs.map indexFixture.name, none) := by
      unfold Clean
      rw [cleanLoop_eq, hfm]
    refine ⟨by rw [hc], ?_, ?_⟩
    · rw [hc]
      constructor
      · intro _ f hf
        exact List.filterMap_eq_nil_iff.mp hfm f hf
      · intro _
        rfl
    · intro errs herrs hne
      exact absurd herrs hne
  | cons e es =>
    have hc : Clean g fs = (fs.map indexFixture.name,
        some ("testfixtures: cleaning up: " ++ String.intercalate ("\n") (e :: es))) := by
      unfold Clean
      rw [cleanLoop_eq, hfm]
    refine ⟨by rw [hc], ?_, ?_⟩
    · rw [hc]
      constructor
      · intro hx
        exact absurd hx (by simp)
      · intro hall
        exfalso
        have h0 : fs.filterMap (fun f => g.result f.name Phase.delete) = [] :=
          List.filterMap_eq_nil_iff.mpr (fun f hf => hall f hf)
        rw [hfm] at h0
        cases h0
    · intro errs herrs hne
      rw [hc, herrs]

/-- Gateway used by the C4 witness: deleting `users` and `logs` fails,
deleting `products` succeeds. -/
def wGateClean : Gateway :=
  ⟨fun n _ => if n = ("users") ∨ n = ("logs") then some ("gone: " ++ n) else none⟩

/-- Witness for C4: with failures on the first and third of three
collections, `Clean` still attempts all three deletions and reports one
composite error carrying both failures. -/
theorem clean_attempts_all_and_aggregates_witness :
    (Clean wGateClean [⟨"users", none, none, []⟩, ⟨"products", none, none, []⟩,
        ⟨"logs", none, none, []⟩]).1 = [("users"), ("products"), ("logs")] ∧
    (Clean wGateClean [⟨"users", none, none, []⟩, ⟨"products", none, none, []⟩,
        ⟨"logs", none, none, []⟩]).2 =
      some ("testfixtures: cleaning up: gone: users\ngone: logs") := by
  have h := clean_attempts_all_and_aggregates wGateClean
    [⟨"users", none, none, []⟩, ⟨"products", none, none, []⟩, ⟨"logs", none, none, []⟩]
  refine ⟨by rw [h.1]; rfl, ?_⟩
  have h3 := h.2.2 [("gone: users"), ("gone: logs")] (by decide) (by simp)
  rw [h3]
  decide

end TestFixtures
